import Mathlib

/-!
Verification of the streaming conversational session core of the ReadMatrix
frontend (`frontend/composables/useChat.ts` and the chat page component).

The TypeScript code is shallowly embedded: JS strings are modelled as
`List Char`, JSON values as the inductive `Json`, the reactive session refs as
the record `SessionState`, and each network interaction as an explicit outcome
datum fed to the pure transition function that mirrors the source.
-/

namespace ReadMatrix

/-- A JSON value, as produced by a successful call of the runtime parser. -/
inductive Json where
  | null : Json
  | bool (b : Bool) : Json
  | num (n : Int) : Json
  | str (s : List Char) : Json
  | arr (elements : List Json) : Json
  | obj (fields : List (List Char × Json)) : Json

/-- Property lookup on a JSON value: a field of an object, absent otherwise. -/
def Json.getField : Json → List Char → Option Json
  | .obj fs, k => (fs.find? (fun f => f.1 == k)).map (fun f => f.2)
  | _, _ => none

/-- JS truthiness of a JSON value (`Boolean(v)`). -/
def jsTruthy : Json → Bool
  | .null => false
  | .bool b => b
  | .num n => n != 0
  | .str s => !s.isEmpty
  | .arr _ => true
  | .obj _ => true

/-- JS truthiness of a possibly absent value (`Boolean(obj.field)`). -/
def jsTruthyOpt (o : Option Json) : Bool :=
  o.elim false jsTruthy

/-- JS `Array.isArray`. -/
def Json.isArr : Json → Bool
  | .arr _ => true
  | _ => false

/-- The element list of a JSON array (empty for non-arrays). -/
def Json.elems : Json → List Json
  | .arr xs => xs
  | _ => []

/-- JS string coercion of a JSON value. Primitive values are rendered exactly;
array and object fragments are a model boundary (rendered as a constant) since
the wire protocol only ever carries strings in the coerced positions. -/
def jsString : Json → List Char
  | .null => "null".toList
  | .bool true => "true".toList
  | .bool false => "false".toList
  | .num n => (toString n).toList
  | .str s => s
  | .arr _ => []
  | .obj _ => "[object Object]".toList

/-- JS `String.prototype.trim` over the char-list model. -/
def jsTrim (s : List Char) : List Char :=
  ((s.dropWhile Char.isWhitespace).reverse.dropWhile Char.isWhitespace).reverse

/-- JS `String.prototype.includes`: substring containment. -/
def containsSub (needle : List Char) : List Char → Bool
  | [] => needle.isEmpty
  | c :: rest => needle.isPrefixOf (c :: rest) || containsSub needle rest

/-- JS `buffer.split("\n")` with the popped trailing element kept separate:
returns the complete lines and the trailing (possibly incomplete) remainder. -/
def splitNl : List Char → List (List Char) × List Char
  | [] => ([], [])
  | c :: rest =>
    let r := splitNl rest
    if c = '\n' then ([] :: r.1, r.2)
    else
      match r.1 with
      | [] => ([], c :: r.2)
      | h :: t => ((c :: h) :: t, r.2)

/-- The `event: ` line marker of the SSE protocol. -/
def eventPre : List Char := "event: ".toList

/-- The `data: ` line marker of the SSE protocol. -/
def dataPre : List Char := "data: ".toList

/-- The line loop of `submit`, decode aspect only: processes one batch of
complete lines with pending event/data registers, returning the final
registers and the `(eventType, payload)` pairs dispatched, in order. -/
def runLines : List Char → List Char → List (List Char) →
    (List Char × List Char) × List (List Char × List Char)
  | ev, dt, [] => ((ev, dt), [])
  | ev, dt, l :: ls =>
    if eventPre.isPrefixOf l then runLines (l.drop 7) dt ls
    else if dataPre.isPrefixOf l then
      let d := l.drop 6
      if ev.isEmpty || d.isEmpty then runLines ev d ls
      else
        let r := runLines [] [] ls
        (r.1, (ev, d) :: r.2)
    else runLines ev dt ls

/-- The chunk loop of `submit`, decode aspect only: feeds byte chunks through
the accumulating buffer; each chunk's complete lines are processed with freshly
initialised pending registers, exactly as the source declares
`currentEvent`/`currentData` inside the `while` body. The trailing buffer is
discarded at end of stream. -/
def decodeAux (buf : List Char) : List (List Char) → List (List Char × List Char)
  | [] => []
  | c :: cs =>
    let r := splitNl (buf ++ c)
    (runLines [] [] r.1).2 ++ decodeAux r.2 cs

/-- Decoding a list of chunks from an empty buffer. -/
def decodeChunks (chunks : List (List Char)) : List (List Char × List Char) :=
  decodeAux [] chunks

example : decodeChunks ["event: delta\ndata: x\n".toList] =
    [("delta".toList, "x".toList)] := by decide

example : decodeChunks ["event: delta\n".toList, "data: x\n".toList] = [] := by
  decide

example : decodeChunks ["event: del".toList, "ta\ndata: x\n".toList] =
    [("delta".toList, "x".toList)] := by decide

/-- The per-chunk line batches produced by the buffer loop. -/
def batchLines (buf : List Char) : List (List Char) → List (List (List Char))
  | [] => []
  | c :: cs =>
    let r := splitNl (buf ++ c)
    r.1 :: batchLines r.2 cs

/-- Merging a left-over remainder into the head of a later split. -/
def mergeSplit (ba : List Char) (r : List (List Char) × List Char) :
    List (List Char) × List Char :=
  match r.1 with
  | [] => ([], ba ++ r.2)
  | h :: t => ((ba ++ h) :: t, r.2)

theorem splitNl_append (a b : List Char) :
    splitNl (a ++ b) =
      ((splitNl a).1 ++ (mergeSplit (splitNl a).2 (splitNl b)).1,
        (mergeSplit (splitNl a).2 (splitNl b)).2) := by
  induction a with
  | nil =>
    cases hb : splitNl b with
    | mk lb bb =>
      cases lb with
      | nil => simp [splitNl, mergeSplit, hb]
      | cons x xs => simp [splitNl, mergeSplit, hb]
  | cons c a ih =>
    cases ha : splitNl a with
    | mk la ba =>
      cases hb : splitNl b with
      | mk lb bb =>
        rw [ha, hb] at ih
        by_cases hc : c = '\n'
        · cases lb with
          | nil =>
            simp only [mergeSplit] at ih ⊢
            simp [splitNl, ha, hb, ih, hc]
          | cons y ys =>
            simp only [mergeSplit] at ih ⊢
            simp [splitNl, ha, hb, ih, hc]
        · cases lb with
          | nil =>
            cases la with
            | nil =>
              simp only [mergeSplit] at ih ⊢
              simp [splitNl, ha, hb, ih, hc]
            | cons h t =>
              simp only [mergeSplit] at ih ⊢
              simp [splitNl, ha, hb, ih, hc]
          | cons y ys =>
            cases la with
            | nil =>
              simp only [mergeSplit] at ih ⊢
              simp [splitNl, ha, hb, ih, hc]
            | cons h t =>
              simp only [mergeSplit] at ih ⊢
              simp [splitNl, ha, hb, ih, hc]

/-- The remainder component of a split never contains a newline. -/
theorem splitNl_snd_no_newline (s : List Char) :
    '\n' ∉ (splitNl s).2 := by
  induction s with
  | nil => simp [splitNl]
  | cons c rest ih =>
    simp only [splitNl]
    by_cases hc : c = '\n'
    · simpa [hc] using ih
    · simp only [hc, if_false]
      cases hr : (splitNl rest).1 with
      | nil =>
        simp only [List.mem_cons, not_or]
        exact ⟨fun h => hc h.symm, ih⟩
      | cons h t => exact ih

/-- A chunk with no newline splits into no complete line and itself. -/
theorem splitNl_of_no_newline (s : List Char) (h : '\n' ∉ s) :
    splitNl s = ([], s) := by
  induction s with
  | nil => simp [splitNl]
  | cons c rest ih =>
    simp only [List.mem_cons, not_or] at h
    have hr := ih h.2
    have hc : ¬c = '\n' := fun hc => h.1 hc.symm
    simp [splitNl, hr, hc]

/-- The complete lines seen across all batches are the complete lines of the
concatenated stream: the buffer never loses or duplicates characters. -/
theorem batchLines_flatten (cs : List (List Char)) :
    ∀ buf, '\n' ∉ buf →
      (batchLines buf cs).flatten = (splitNl (buf ++ cs.flatten)).1 := by
  induction cs with
  | nil =>
    intro buf hb
    simp [batchLines, splitNl_of_no_newline buf hb]
  | cons c cs ih =>
    intro buf hb
    simp only [batchLines, List.flatten_cons, List.flatten]
    rw [ih _ (splitNl_snd_no_newline (buf ++ c)), ← List.append_assoc,
      splitNl_append ((buf ++ c)) (cs.flatten),
      splitNl_append ((splitNl (buf ++ c)).2) (cs.flatten),
      splitNl_of_no_newline _ (splitNl_snd_no_newline (buf ++ c))]
    simp

/-- Decoding is batch-wise: per batch, the line loop runs from fresh registers. -/
theorem decodeAux_eq_batches (cs : List (List Char)) :
    ∀ buf, decodeAux buf cs =
      ((batchLines buf cs).map (fun b => (runLines [] [] b).2)).flatten := by
  induction cs with
  | nil => intro buf; simp [decodeAux, batchLines]
  | cons c cs ih => intro buf; simp [decodeAux, batchLines, ih]

theorem runLines_append (xs ys : List (List Char)) :
    ∀ ev dt, runLines ev dt (xs ++ ys) =
      ((runLines (runLines ev dt xs).1.1 (runLines ev dt xs).1.2 ys).1,
        (runLines ev dt xs).2 ++
          (runLines (runLines ev dt xs).1.1 (runLines ev dt xs).1.2 ys).2) := by
  induction xs with
  | nil => intro ev dt; simp [runLines]
  | cons l ls ih =>
    intro ev dt
    simp only [List.cons_append, runLines]
    by_cases h1 : eventPre.isPrefixOf l
    · simp [h1, ih]
    · by_cases h2 : dataPre.isPrefixOf l
      · by_cases h3 : ev.isEmpty || (l.drop 6).isEmpty
        · simp [h1, h2, h3, ih]
        · simp [h1, h2, h3, ih]
      · simp [h1, h2, ih]

/-- Emissions and the pending-event register do not depend on the pending-data
register: dispatch only ever reads the data of the line being processed. -/
theorem runLines_data_irrel (ls : List (List Char)) :
    ∀ ev dt dt', (runLines ev dt ls).2 = (runLines ev dt' ls).2 ∧
      (runLines ev dt ls).1.1 = (runLines ev dt' ls).1.1 := by
  induction ls with
  | nil => intro ev dt dt'; simp [runLines]
  | cons l ls ih =>
    intro ev dt dt'
    simp only [runLines]
    by_cases h1 : eventPre.isPrefixOf l
    · simp only [h1, if_true]; exact ih _ _ _
    · by_cases h2 : dataPre.isPrefixOf l
      · by_cases h3 : ev.isEmpty || (l.drop 6).isEmpty
        · simp only [h1, h2, h3, if_true, if_false]; exact ih _ _ _
        · simp [h1, h2, h3]
      · simp only [h1, h2, if_false]; exact ih _ _ _

/-- Per-batch decoding agrees with one-shot decoding of the flattened line
list, provided the pending-event register is empty at every batch boundary. -/
theorem runLines_batches (bs : List (List (List Char)))
    (H : ∀ k, k ≤ bs.length →
      (runLines [] [] ((bs.take k).flatten)).1.1 = []) :
    (bs.map (fun b => (runLines [] [] b).2)).flatten =
      (runLines [] [] bs.flatten).2 := by
  induction bs with
  | nil => simp [runLines]
  | cons b bs ih =>
    have h1 : (runLines [] [] b).1.1 = [] := by
      have := H 1 (by simp)
      simpa using this
    have hirr := runLines_data_irrel bs.flatten [] (runLines [] [] b).1.2 []
    simp only [List.map_cons, List.flatten_cons]
    rw [runLines_append b bs.flatten [] [], h1]
    dsimp only
    rw [hirr.1]
    have H' : ∀ k, k ≤ bs.length →
        (runLines [] [] ((bs.take k).flatten)).1.1 = [] := by
      intro k hk
      have hH := H (k + 1) (by simp only [List.length_cons]; omega)
      rw [List.take_succ_cons, List.flatten_cons,
        runLines_append b ((bs.take k).flatten) [] [], h1] at hH
      have hirr2 := runLines_data_irrel ((bs.take k).flatten) []
        (runLines [] [] b).1.2 []
      rw [← hirr2.2]
      exact hH
    rw [ih H']

/-- C1, amended: for any split of the stream into chunks such that the
whole-stream line loop has an empty pending event type at every chunk-batch
boundary (in particular, whenever no boundary separates an `event:` line from
its `data:` line), incremental decoding equals one-shot decoding. -/
theorem decode_incremental_eq_whole (chunks : List (List Char))
    (H : ∀ k, k ≤ (batchLines [] chunks).length →
      (runLines [] [] (((batchLines [] chunks).take k).flatten)).1.1 = []) :
    decodeChunks chunks = decodeChunks [chunks.flatten] := by
  unfold decodeChunks
  rw [decodeAux_eq_batches chunks [], runLines_batches _ H,
    batchLines_flatten chunks [] (by simp)]
  simp [decodeAux]

/-- Witness: a two-chunk split whose boundary falls between two complete
events decodes to the same sequence as the whole stream. -/
theorem decode_incremental_eq_whole_witness :
    decodeChunks ["event: a\ndata: b\n".toList, "event: c\ndata: d\n".toList] =
      decodeChunks
        [["event: a\ndata: b\n".toList, "event: c\ndata: d\n".toList].flatten] :=
  decode_incremental_eq_whole
    ["event: a\ndata: b\n".toList, "event: c\ndata: d\n".toList] (by decide)

/-- C1 counterexample: splitting a well-formed stream between the `event:`
line and the `data:` line drops the event, because the source re-initialises
`currentEvent` for every chunk batch; one-shot decoding emits the event. -/
theorem decode_chunk_split_counterexample :
    decodeChunks ["event: delta\n".toList, "data: x\n".toList] ≠
      decodeChunks ["event: delta\ndata: x\n".toList] := by
  decide

/-- Message role. -/
inductive Role where
  | user : Role
  | assistant : Role
deriving DecidableEq

/-- A conversation message. Citations are kept as raw JSON values, as the
source trusts the wire payload without validation. Optional fields absent on
user messages are modelled by their defaulted values. -/
structure Message where
  id : List Char
  role : Role
  content : List Char
  citations : List Json
  isClarification : Bool

/-- Default message used for out-of-range index reads (never hit in the
modelled flows, where the assistant index is always in range). -/
def mDefault : Message :=
  { id := [], role := .user, content := [], citations := [], isClarification := false }

/-- The reactive state of the `useChat` composable, plus the persisted
`localStorage` slot for the conversation identity. -/
structure SessionState where
  messages : List Message
  input : List Char
  isLoading : Bool
  error : Option (List Char)
  currentCitations : List Json
  selectedCitation : Option Json
  conversationId : Option (List Char)
  persisted : Option (List Char)

/-- The initial state of a fresh session (all refs at their initial values);
the persisted slot is whatever the browser storage holds. -/
def initState (persisted : Option (List Char)) : SessionState :=
  { messages := [], input := [], isLoading := false, error := none,
    currentCitations := [], selectedCitation := none, conversationId := none,
    persisted := persisted }

/-- `setConversationId`: updates the in-memory identity and synchronizes the
persisted slot (write on non-null, delete on null). -/
def setConversationId (s : SessionState) (id : Option (List Char)) : SessionState :=
  { s with conversationId := id, persisted := id }

/-- Read of the message at an index (the source indexes `messages.value`). -/
def getMsg (s : SessionState) (i : Nat) : Message :=
  s.messages.getD i mDefault

/-- The fixed no-information marker phrase checked before attaching citations. -/
def noInfoMarker : List Char := "根据你的笔记，我没有找到相关信息".toList

/-- The fixed user-visible failure string written on a failed turn. -/
def apologyMsg : List Char := "抱歉，发生了错误。请稍后再试。".toList

/-- Error message of a failed `/api/ask` request. -/
def apiErrorMsg (status : Nat) : List Char :=
  "API error: ".toList ++ (toString status).toList

/-- Error message for an absent response body. -/
def noBodyMsg : List Char := "No response body".toList

/-- Error message carried by a `JSON.parse` failure. -/
def jsonErrMsg : List Char := "Unexpected token in JSON".toList

/-- Error message of a failed conversation-creation request. -/
def createErrMsg (status : Nat) : List Char :=
  "创建会话失败: ".toList ++ (toString status).toList

/-- Error message for a creation response missing the identity field. -/
def missingIdMsg : List Char := "创建会话失败: 响应缺少 conversation_id".toList

/-- Error message of a failed history fetch. -/
def loadErrMsg (status : Nat) : List Char :=
  "加载历史会话失败: ".toList ++ (toString status).toList

/-- Field keys of the wire payloads. -/
def cidKey : List Char := "conversation_id".toList

/-- The clarification-indicator key of the `meta` payload. -/
def needsKey : List Char := "needs_clarification".toList

/-- The text-fragment key of the `delta` payload. -/
def contentKey : List Char := "content".toList

/-- SSE event-type names dispatched by the turn loop. -/
def metaLit : List Char := "meta".toList

/-- The `delta` event type. -/
def deltaLit : List Char := "delta".toList

/-- The `citations` event type. -/
def citationsLit : List Char := "citations".toList

/-- The text appended by a `delta` event: `data.content || ""`. -/
def deltaText (j : Json) : List Char :=
  match j.getField contentKey with
  | some v => if jsTruthy v then jsString v else []
  | none => []

/-- Outcome of the remote `POST /api/conversations` call. -/
inductive CreateOutcome where
  | success (cid : List Char) : CreateOutcome
  | httpError (status : Nat) : CreateOutcome
  | thrown (msg : List Char) : CreateOutcome

/-- `createConversation`: on success persists the identity; a non-success
status, a missing identity field, or a thrown error is reported as the error
message the source would construct. -/
def createConversation (o : CreateOutcome) (s : SessionState) :
    SessionState × Except (List Char) (List Char) :=
  match o with
  | .success cid =>
    if cid.isEmpty then (s, .error missingIdMsg)
    else (setConversationId s (some cid), .ok cid)
  | .httpError n => (s, .error (createErrMsg n))
  | .thrown m => (s, .error m)

/-- `ensureConversation`: returns the held identity when truthy, otherwise
creates one. -/
def ensureConversation (o : CreateOutcome) (s : SessionState) :
    SessionState × Except (List Char) (List Char) :=
  match s.conversationId with
  | some cid => if cid.isEmpty then createConversation o s else (s, .ok cid)
  | none => createConversation o s

/-- One dispatched event of the turn loop: parse the payload (`none` models a
thrown `JSON.parse`), then branch on the event type, mirroring the source's
`meta`/`delta`/`citations` branches; unknown types are ignored. The `Bool`
component is the turn's `isClarification` local. -/
def handleEvent (parse : List Char → Option Json) (aIdx : Nat)
    (st : SessionState × Bool) (ev dt : List Char) :
    Option (SessionState × Bool) :=
  match parse dt with
  | none => none
  | some data =>
    let s := st.1
    let clar := st.2
    if ev = metaLit then
      let s' :=
        if jsTruthyOpt (data.getField cidKey) then
          setConversationId s (some (jsString ((data.getField cidKey).getD .null)))
        else s
      some (s', jsTruthyOpt (data.getField needsKey))
    else if ev = deltaLit then
      let m := getMsg s aIdx
      let m' : Message :=
        { m with content := m.content ++ deltaText data, isClarification := clar }
      some ({ s with messages := s.messages.set aIdx m' }, clar)
    else if ev = citationsLit then
      let m := getMsg s aIdx
      let noInfo := containsSub noInfoMarker m.content
      let cits := if noInfo || clar || !data.isArr then [] else data.elems
      let m' : Message := { m with citations := cits, isClarification := clar }
      some ({ s with currentCitations := cits,
                     messages := s.messages.set aIdx m' }, clar)
    else some (s, clar)

/-- The line loop of `submit` with dispatch: a parse failure aborts with the
thrown message, leaving the state as already mutated. -/
def runTurnLines (parse : List Char → Option Json) (aIdx : Nat) :
    List (List Char) → List Char → List Char → SessionState × Bool →
      (SessionState × Bool) × Option (List Char)
  | [], _, _, st => (st, none)
  | l :: ls, ev, dt, st =>
    if eventPre.isPrefixOf l then runTurnLines parse aIdx ls (l.drop 7) dt st
    else if dataPre.isPrefixOf l then
      let d := l.drop 6
      if ev.isEmpty || d.isEmpty then runTurnLines parse aIdx ls ev d st
      else
        match handleEvent parse aIdx st ev d with
        | some st' => runTurnLines parse aIdx ls [] [] st'
        | none => (st, some jsonErrMsg)
    else runTurnLines parse aIdx ls ev dt st

/-- The chunk loop of `submit` with dispatch: an abort inside a batch exits
the whole read loop (the exception propagates to the surrounding catch). -/
def runTurnChunks (parse : List Char → Option Json) (aIdx : Nat) :
    List (List Char) → List Char → SessionState × Bool →
      (SessionState × Bool) × Option (List Char)
  | [], _, st => (st, none)
  | c :: cs, buf, st =>
    let r := splitNl (buf ++ c)
    match runTurnLines parse aIdx r.1 [] [] st with
    | (st', none) => runTurnChunks parse aIdx cs r.2 st'
    | (st', some e) => (st', some e)

/-- Dispatching a decoded event sequence directly (the assembler view of the
turn loop); aborts at the first payload that fails to parse. -/
def processEvents (parse : List Char → Option Json) (aIdx : Nat) :
    List (List Char × List Char) → SessionState × Bool →
      (SessionState × Bool) × Option (List Char)
  | [], st => (st, none)
  | (ev, dt) :: es, st =>
    match handleEvent parse aIdx st ev dt with
    | some st' => processEvents parse aIdx es st'
    | none => (st, some jsonErrMsg)

/-- Outcome of the `/api/ask` request. -/
inductive AskOutcome where
  | httpError (status : Nat) : AskOutcome
  | noBody : AskOutcome
  | stream (chunks : List (List Char)) : AskOutcome

/-- The environment of one `submit` call: the outcome of conversation
creation (when needed), the ask response, the runtime JSON parser, and the
two generated message ids. -/
structure AskTransport where
  create : CreateOutcome
  ask : AskOutcome
  parse : List Char → Option Json
  uid : List Char
  aid : List Char

/-- The user message pushed at the start of a turn. -/
def mkUserMsg (t : AskTransport) (s : SessionState) : Message :=
  { id := t.uid, role := .user, content := jsTrim s.input, citations := [],
    isClarification := false }

/-- The placeholder assistant message opened for the turn. -/
def mkAssistantMsg (t : AskTransport) : Message :=
  { id := t.aid, role := .assistant, content := [], citations := [],
    isClarification := false }

/-- The synchronous prologue of `submit`: push the user message, reset the
input/error/citation refs, raise the loading flag, push the placeholder. -/
def submitSetup (t : AskTransport) (s : SessionState) : SessionState :=
  { s with messages := s.messages ++ [mkUserMsg t s, mkAssistantMsg t],
           input := [], isLoading := true, error := none,
           currentCitations := [] }

/-- The `try` block of `submit`: ensure a conversation, issue the request and
run the stream loop; the `Option` component is the thrown error, if any. -/
def submitTry (t : AskTransport) (aIdx : Nat) (s2 : SessionState) :
    SessionState × Option (List Char) :=
  match ensureConversation t.create s2 with
  | (s3, .error e) => (s3, some e)
  | (s3, .ok _) =>
    match t.ask with
    | .httpError n => (s3, some (apiErrorMsg n))
    | .noBody => (s3, some noBodyMsg)
    | .stream chunks =>
      let r := runTurnChunks t.parse aIdx chunks [] (s3, false)
      (r.1.1, r.2)

/-- The `catch`/`finally` epilogue of `submit`: on a thrown error record it
and overwrite the open assistant message with the fixed apology (keeping its
other fields); always clear the loading flag. -/
def submitFinish (aIdx : Nat) (res : SessionState × Option (List Char)) :
    SessionState :=
  match res with
  | (sf, none) => { sf with isLoading := false }
  | (sf, some e) =>
    let m' : Message := { getMsg sf aIdx with content := apologyMsg }
    { sf with error := some e, isLoading := false,
              messages := sf.messages.set aIdx m' }

/-- `submit`: guard on empty input or an in-flight turn, then run the staged
turn against the open assistant message's index. -/
def submit (t : AskTransport) (s : SessionState) : SessionState :=
  if (jsTrim s.input).isEmpty || s.isLoading then s
  else
    let s2 := submitSetup t s
    let aIdx := s2.messages.length - 1
    submitFinish aIdx (submitTry t aIdx s2)

example :
    getMsg (submit
      { create := .success "c1".toList,
        ask := .stream ["event: delta\ndata: D\n".toList],
        parse := fun d => if d = "D".toList
          then some (.obj [(contentKey, .str "hi".toList)]) else none,
        uid := "u".toList, aid := "a".toList }
      { initState none with input := "q".toList }) 1 =
    { id := "a".toList, role := .assistant, content := "hi".toList,
      citations := [], isClarification := false } := rfl

/-- One message of the history payload, as the wire delivers it (optional
citation list, optional clarification flag). -/
structure ServerMessage where
  id : List Char
  role : Role
  content : List Char
  citations : Option (List Json)
  clarFlag : Option Bool

/-- The history payload of `GET /api/conversations/{id}/messages`. -/
structure ConversationList where
  conversation_id : List Char
  msgs : List ServerMessage

/-- Outcome of the history fetch issued by `restoreConversationMessages`. -/
inductive RestoreOutcome where
  | notFound : RestoreOutcome
  | httpError (status : Nat) : RestoreOutcome
  | thrown (msg : List Char) : RestoreOutcome
  | success (payload : ConversationList) : RestoreOutcome

/-- The mapping of one wire message into the `Message` shape (missing citation
lists default to empty, the clarification flag is coerced to a boolean). -/
def mapServerMsg (it : ServerMessage) : Message :=
  { id := it.id, role := it.role, content := it.content,
    citations := it.citations.getD [], isClarification := it.clarFlag.getD false }

/-- The newest-to-oldest scan predicate of `restoreConversationMessages`. -/
def citedAssistant (m : Message) : Bool :=
  decide (m.role = .assistant) && !m.citations.isEmpty

/-- `restoreConversationMessages`: no-op without a persisted identity; 404
clears the identity silently; any other failure records the error message; on
success the identity and timeline are replaced and the most recent cited
assistant message initialises the citation view. -/
def restore (r : RestoreOutcome) (s : SessionState) : SessionState :=
  match s.persisted with
  | none => s
  | some _ =>
    match r with
    | .notFound => setConversationId s none
    | .httpError n => { s with error := some (loadErrMsg n) }
    | .thrown m => { s with error := some m }
    | .success payload =>
      let s1 := setConversationId s (some payload.conversation_id)
      let mapped := payload.msgs.map mapServerMsg
      let s2 := { s1 with messages := mapped }
      match mapped.reverse.find? citedAssistant with
      | some lastAssistant =>
        { s2 with currentCitations := lastAssistant.citations,
                  selectedCitation :=
                    match lastAssistant.citations with
                    | c :: _ => if jsTruthy c then some c else none
                    | [] => none }
      | none => s2

/-- `clear`: wipes the page-local state, keeping the conversation identity. -/
def clear (s : SessionState) : SessionState :=
  { s with messages := [], currentCitations := [], selectedCitation := none,
           error := none }

/-- `startNewConversation`: clear, drop the identity, create a fresh one;
a creation failure records the error message. -/
def startNewConversation (o : CreateOutcome) (s : SessionState) : SessionState :=
  let s1 := setConversationId (clear s) none
  match createConversation o s1 with
  | (s2, .ok _) => s2
  | (s2, .error e) => { s2 with error := some e }

/-- `selectCitation`: sets the sidebar selection, no validation. -/
def selectCitation (c : Json) (s : SessionState) : SessionState :=
  { s with selectedCitation := some c }

/-- `handleCitationClick` of the chat page: resolve the clicked marker number
against `currentCitations` by id equality; select on a match, else no-op. -/
def handleCitationClick (k : Int) (s : SessionState) : SessionState :=
  match s.currentCitations.find? (fun c =>
      match c.getField "id".toList with
      | some (.num n) => n = k
      | _ => false) with
  | some c => selectCitation c s
  | none => s

/-- `handleMessageClick` of the chat page: a message with citations replaces
the citation panel and selects the first citation; otherwise the panel is
cleared (the selection is left as it was). -/
def handleMessageClick (m : Message) (s : SessionState) : SessionState :=
  match m.citations with
  | c :: _ => selectCitation c { s with currentCitations := m.citations }
  | [] => { s with currentCitations := [] }

/-- The operations of the session core, each carrying its environment. -/
inductive Op where
  | submitOp (t : AskTransport) : Op
  | restoreOp (r : RestoreOutcome) : Op
  | clearOp : Op
  | newConversationOp (o : CreateOutcome) : Op
  | markerClickOp (k : Int) : Op
  | messageClickOp (m : Message) : Op

/-- The transition function of the session core. -/
def step : Op → SessionState → SessionState
  | .submitOp t, s => submit t s
  | .restoreOp r, s => restore r s
  | .clearOp, s => clear s
  | .newConversationOp o, s => startNewConversation o s
  | .markerClickOp k, s => handleCitationClick k s
  | .messageClickOp m, s => handleMessageClick m s

/-- The claimed session-state invariant: the selected citation, when present,
is one of the current citations. -/
def citInv (s : SessionState) : Prop :=
  match s.selectedCitation with
  | none => True
  | some c => c ∈ s.currentCitations

/-- The fused line loop is dispatch over the decoded events of the batch. -/
theorem runTurnLines_eq_processEvents (parse : List Char → Option Json)
    (aIdx : Nat) (ls : List (List Char)) :
    ∀ ev dt st, runTurnLines parse aIdx ls ev dt st =
      processEvents parse aIdx (runLines ev dt ls).2 st := by
  induction ls with
  | nil => intro ev dt st; simp [runTurnLines, runLines, processEvents]
  | cons l ls ih =>
    intro ev dt st
    simp only [runTurnLines, runLines]
    by_cases h1 : eventPre.isPrefixOf l
    · simp [h1, ih]
    · by_cases h2 : dataPre.isPrefixOf l
      · by_cases h3 : ev.isEmpty || (l.drop 6).isEmpty
        · simp [h1, h2, h3, ih]
        · simp only [h1, h2, h3, if_true, if_false, Bool.false_eq_true]
          cases hhe : handleEvent parse aIdx st ev (l.drop 6) with
          | some st' => simp [hhe, ih, processEvents]
          | none => simp [hhe, processEvents]
      · simp [h1, h2, ih]

theorem processEvents_append (parse : List Char → Option Json) (aIdx : Nat)
    (es1 es2 : List (List Char × List Char)) :
    ∀ st, processEvents parse aIdx (es1 ++ es2) st =
      match processEvents parse aIdx es1 st with
      | (st', none) => processEvents parse aIdx es2 st'
      | (st', some e) => (st', some e) := by
  induction es1 with
  | nil => intro st; simp [processEvents]
  | cons e es1 ih =>
    intro st
    cases e with
    | mk ev dt =>
      simp only [List.cons_append, processEvents]
      cases hhe : handleEvent parse aIdx st ev dt with
      | some st' => simp [hhe, ih]
      | none => simp [hhe]

/-- Refinement: the chunk loop of `submit` is exactly dispatch over the
decoded event sequence of the chunk stream. -/
theorem runTurnChunks_eq_processEvents (parse : List Char → Option Json)
    (aIdx : Nat) (cs : List (List Char)) :
    ∀ buf st, runTurnChunks parse aIdx cs buf st =
      processEvents parse aIdx (decodeAux buf cs) st := by
  induction cs with
  | nil => intro buf st; simp [runTurnChunks, decodeAux, processEvents]
  | cons c cs ih =>
    intro buf st
    simp only [runTurnChunks, decodeAux]
    rw [runTurnLines_eq_processEvents, processEvents_append]
    cases h : processEvents parse aIdx
        (runLines [] [] (splitNl (buf ++ c)).1).2 st with
    | mk st' err =>
      cases err with
      | none => simp [ih]
      | some e => simp

theorem getD_set_self {α : Type} (l : List α) (i : Nat) (a d : α)
    (h : i < l.length) : (l.set i a).getD i d = a := by
  induction l generalizing i with
  | nil => simp at h
  | cons x xs ih =>
    cases i with
    | zero => simp
    | succ n =>
      simp only [List.set_cons_succ, List.getD_cons_succ]
      exact ih n (by simpa using h)

theorem getD_append_second {α : Type} (l : List α) (x y d : α) :
    (l ++ [x, y]).getD (l.length + 1) d = y := by
  induction l with
  | nil => simp
  | cons z zs ih => simpa using ih

/-- Text fragments of the `delta` events of a decoded event sequence, in
arrival order, with the empty-string fallback for absent fragments. -/
def deltaFrags (parse : List Char → Option Json)
    (es : List (List Char × List Char)) : List (List Char) :=
  es.filterMap (fun e =>
    if e.1 = deltaLit then some ((parse e.2).elim [] deltaText) else none)

/-- The assembler grows the open message's content by exactly the
concatenation of the `delta` fragments, in arrival order; no event type
shrinks, reorders or duplicates content, and the timeline length is fixed. -/
theorem processEvents_content (parse : List Char → Option Json) (aIdx : Nat)
    (es : List (List Char × List Char)) :
    ∀ s clar out, aIdx < s.messages.length →
      processEvents parse aIdx es (s, clar) = (out, none) →
      (getMsg out.1 aIdx).content =
          (getMsg s aIdx).content ++ (deltaFrags parse es).flatten ∧
        out.1.messages.length = s.messages.length := by
  induction es with
  | nil =>
    intro s clar out hlen h
    simp only [processEvents, Prod.mk.injEq] at h
    rw [← h.1]
    simp [deltaFrags]
  | cons e es ih =>
    intro s clar out hlen h
    obtain ⟨ev, dt⟩ := e
    simp only [processEvents] at h
    cases hhe : handleEvent parse aIdx (s, clar) ev dt with
    | none => rw [hhe] at h; simp at h
    | some st' =>
      rw [hhe] at h
      simp only [handleEvent] at hhe
      cases hp : parse dt with
      | none => rw [hp] at hhe; simp at hhe
      | some data =>
        rw [hp] at hhe
        simp only [Option.some.injEq] at hhe
        by_cases hev1 : ev = metaLit
        · have hne : ¬(ev = deltaLit) := by
            rw [hev1]; decide
          rw [if_pos hev1] at hhe
          obtain ⟨sA, clarA⟩ := st'
          have hmsgs : sA.messages = s.messages := by
            cases hhe
            by_cases hcid : jsTruthyOpt (data.getField cidKey) = true
            · simp [hcid, setConversationId]
            · simp [hcid]
          have := ih sA clarA out (by rw [hmsgs]; exact hlen) h
          refine ⟨?_, by rw [this.2, hmsgs]⟩
          rw [this.1]
          simp [deltaFrags, hne, getMsg, hmsgs]
        · by_cases hev2 : ev = deltaLit
          · rw [if_neg hev1, if_pos hev2] at hhe
            obtain ⟨sA, clarA⟩ := st'
            have hst : sA = { s with
                messages := s.messages.set aIdx
                  ({ getMsg s aIdx with
                     content := (getMsg s aIdx).content ++ deltaText data,
                     isClarification := clar }) } := by
              cases hhe; rfl
            have hlenA : sA.messages.length = s.messages.length := by
              rw [hst]; simp
            have := ih sA clarA out (by rw [hlenA]; exact hlen) h
            refine ⟨?_, by rw [this.2, hlenA]⟩
            rw [this.1]
            have hget : getMsg sA aIdx = { getMsg s aIdx with
                content := (getMsg s aIdx).content ++ deltaText data,
                isClarification := clar } := by
              rw [hst]
              exact getD_set_self _ _ _ _ hlen
            rw [hget]
            simp [deltaFrags, hev2, hp, List.append_assoc]
          · by_cases hev3 : ev = citationsLit
            · rw [if_neg hev1, if_neg hev2, if_pos hev3] at hhe
              obtain ⟨sA, clarA⟩ := st'
              have hst : sA = { s with
                  currentCitations :=
                    (if containsSub noInfoMarker (getMsg s aIdx).content ||
                        clar || !data.isArr then [] else data.elems),
                  messages := s.messages.set aIdx
                    ({ getMsg s aIdx with
                        citations :=
                          (if containsSub noInfoMarker (getMsg s aIdx).content ||
                              clar || !data.isArr then [] else data.elems),
                        isClarification := clar }) } := by
                cases hhe; rfl
              have hlenA : sA.messages.length = s.messages.length := by
                rw [hst]; simp
              have := ih sA clarA out (by rw [hlenA]; exact hlen) h
              refine ⟨?_, by rw [this.2, hlenA]⟩
              rw [this.1]
              have hget : getMsg sA aIdx = { getMsg s aIdx with
                  citations :=
                    (if containsSub noInfoMarker (getMsg s aIdx).content ||
                        clar || !data.isArr then [] else data.elems),
                  isClarification := clar } := by
                rw [hst]
                exact getD_set_self _ _ _ _ hlen
              rw [hget]
              simp [deltaFrags, hev2]
            · rw [if_neg hev1, if_neg hev2, if_neg hev3] at hhe
              obtain ⟨sA, clarA⟩ := st'
              have hst : sA = s := by cases hhe; rfl
              have := ih sA clarA out (by rw [hst]; exact hlen) h
              refine ⟨?_, by rw [this.2, hst]⟩
              rw [this.1, hst]
              simp [deltaFrags, hev2]

/-- `ensureConversation` either returns the state unchanged or only updates
the conversation identity. -/
theorem ensureConversation_fst (o : CreateOutcome) (s : SessionState) :
    (ensureConversation o s).1 = s ∨
      ∃ cid, (ensureConversation o s).1 = setConversationId s (some cid) := by
  unfold ensureConversation createConversation
  cases s.conversationId with
  | none =>
    cases o with
    | success cid =>
      by_cases h : cid.isEmpty
      · left; simp [h]
      · right; exact ⟨cid, by simp [h]⟩
    | httpError n => left; rfl
    | thrown m => left; rfl
  | some cid0 =>
    by_cases h0 : cid0.isEmpty
    · cases o with
      | success cid =>
        by_cases h : cid.isEmpty
        · left; simp [h0, h]
        · right; exact ⟨cid, by simp [h0, h]⟩
      | httpError n => left; simp [h0]
      | thrown m => left; simp [h0]
    · left; simp [h0]

/-- `ensureConversation` never touches the message timeline. -/
theorem ensureConversation_messages (o : CreateOutcome) (s : SessionState) :
    ((ensureConversation o s).1).messages = s.messages := by
  rcases ensureConversation_fst o s with h | ⟨cid, h⟩
  · rw [h]
  · rw [h]; rfl

/-- C2, amended: for a turn that streams without a thrown error, the open
assistant message's content at end of turn is the concatenation, in arrival
order, of the fragments of the `delta` events decoded from the chunk stream
(empty-string fallback for absent fragments, no reordering, no deduplication);
chunk distributions decoding to the same event sequence therefore yield the
same content, but a distribution that changes the decoded sequence changes it. -/
theorem submit_delta_concat (t : AskTransport) (s : SessionState)
    (chunks : List (List Char))
    (hin : (jsTrim s.input).isEmpty = false) (hload : s.isLoading = false)
    (hask : t.ask = .stream chunks)
    (herr : (submit t s).error = none) :
    (getMsg (submit t s) (s.messages.length + 1)).content =
      (deltaFrags t.parse (decodeChunks chunks)).flatten := by
  have hguard : ¬(((jsTrim s.input).isEmpty || s.isLoading) = true) := by
    simp [hin, hload]
  have hsub : submit t s =
      submitFinish ((submitSetup t s).messages.length - 1)
        (submitTry t ((submitSetup t s).messages.length - 1)
          (submitSetup t s)) := by
    rw [submit, if_neg hguard]
  have hlen2 : (submitSetup t s).messages.length = s.messages.length + 2 := by
    simp [submitSetup]
  have haIdx : (submitSetup t s).messages.length - 1 = s.messages.length + 1 := by
    rw [hlen2]
    omega
  rw [hsub, haIdx] at herr ⊢
  cases hens : ensureConversation t.create (submitSetup t s) with
  | mk s3 res =>
    have hmsg3 : s3.messages = (submitSetup t s).messages := by
      have := ensureConversation_messages t.create (submitSetup t s)
      rw [hens] at this
      exact this
    cases res with
    | error e =>
      simp only [submitTry, hens, submitFinish] at herr
      simp at herr
    | ok cid =>
      simp only [submitTry, hens, hask] at herr ⊢
      rw [runTurnChunks_eq_processEvents] at herr ⊢
      cases hrun : processEvents t.parse (s.messages.length + 1)
          (decodeAux [] chunks) (s3, false) with
      | mk st' err =>
        cases err with
        | some e =>
          rw [hrun] at herr
          simp [submitFinish] at herr
        | none =>
          dsimp only
          simp only [submitFinish]
          have hlt : s.messages.length + 1 < s3.messages.length := by
            rw [hmsg3, hlen2]; omega
          have hcontent := processEvents_content t.parse
            (s.messages.length + 1) (decodeAux [] chunks) s3 false st' hlt hrun
          have hinit : getMsg s3 (s.messages.length + 1) = mkAssistantMsg t := by
            unfold getMsg
            rw [hmsg3]
            unfold submitSetup
            exact getD_append_second s.messages (mkUserMsg t s)
              (mkAssistantMsg t) mDefault
          have hfin : getMsg { st'.1 with isLoading := false }
              (s.messages.length + 1) = getMsg st'.1 (s.messages.length + 1) := rfl
          rw [hfin, hcontent.1, hinit]
          simp [mkAssistantMsg, decodeChunks]

/-- Witness for the amended C2 theorem: a turn with two delta fragments. -/
theorem submit_delta_concat_witness :
    (getMsg (submit
      { create := .success "c".toList,
        ask := .stream ["event: delta\ndata: y\nevent: delta\ndata: z\n".toList],
        parse := fun d =>
          if d = "y".toList then some (.obj [(contentKey, .str "Hab".toList)])
          else if d = "z".toList then some (.obj [(contentKey, .str "its".toList)])
          else none,
        uid := "u".toList, aid := "a".toList }
      { initState none with input := "q".toList }) 1).content =
      (deltaFrags
        (fun d =>
          if d = "y".toList then some (.obj [(contentKey, .str "Hab".toList)])
          else if d = "z".toList then some (.obj [(contentKey, .str "its".toList)])
          else none)
        (decodeChunks
          ["event: delta\ndata: y\nevent: delta\ndata: z\n".toList])).flatten :=
  submit_delta_concat
    { create := .success "c".toList,
      ask := .stream ["event: delta\ndata: y\nevent: delta\ndata: z\n".toList],
      parse := fun d =>
        if d = "y".toList then some (.obj [(contentKey, .str "Hab".toList)])
        else if d = "z".toList then some (.obj [(contentKey, .str "its".toList)])
        else none,
      uid := "u".toList, aid := "a".toList }
    { initState none with input := "q".toList }
    ["event: delta\ndata: y\nevent: delta\ndata: z\n".toList]
    (by decide) (by decide) rfl (by decide)

/-- C2 counterexample: the same delta-carrying event stream, distributed over
chunks in two ways, yields different content — splitting between the `event:`
line and the `data:` line loses the fragment, so the content is NOT the
fragment concatenation regardless of chunk distribution. -/
theorem submit_chunk_distribution_counterexample :
    (getMsg (submit
      { create := .success "c".toList,
        ask := .stream ["event: delta\ndata: y\n".toList],
        parse := fun d =>
          if d = "y".toList then some (.obj [(contentKey, .str "hi".toList)])
          else none,
        uid := "u".toList, aid := "a".toList }
      { initState none with input := "q".toList }) 1).content = "hi".toList ∧
    (getMsg (submit
      { create := .success "c".toList,
        ask := .stream ["event: delta\n".toList, "data: y\n".toList],
        parse := fun d =>
          if d = "y".toList then some (.obj [(contentKey, .str "hi".toList)])
          else none,
        uid := "u".toList, aid := "a".toList }
      { initState none with input := "q".toList }) 1).content = [] := by
  exact ⟨rfl, rfl⟩

/-- C3: a `citations` event attaches the payload sequence verbatim as the open
message's citation list and as `currentCitations` exactly when the payload is
an array, the clarification flag is false, and the assembled content does not
contain the no-information marker; otherwise both are set to empty. -/
theorem citations_suppression (parse : List Char → Option Json) (aIdx : Nat)
    (s : SessionState) (clar : Bool) (dt : List Char) (j : Json)
    (hp : parse dt = some j) (hlt : aIdx < s.messages.length) :
    ∃ s', handleEvent parse aIdx (s, clar) citationsLit dt = some (s', clar) ∧
      s'.currentCitations =
        (if j.isArr = true ∧ clar = false ∧
            containsSub noInfoMarker (getMsg s aIdx).content = false
         then j.elems else []) ∧
      (getMsg s' aIdx).citations =
        (if j.isArr = true ∧ clar = false ∧
            containsSub noInfoMarker (getMsg s aIdx).content = false
         then j.elems else []) := by
  have hne1 : ¬(citationsLit = metaLit) := by decide
  have hne2 : ¬(citationsLit = deltaLit) := by decide
  refine ⟨{ s with
      currentCitations :=
        (if containsSub noInfoMarker (getMsg s aIdx).content || clar || !j.isArr
         then [] else j.elems),
      messages := s.messages.set aIdx
        ({ getMsg s aIdx with
           citations :=
             (if containsSub noInfoMarker (getMsg s aIdx).content || clar ||
                 !j.isArr
              then [] else j.elems),
           isClarification := clar }) }, ?_, ?_, ?_⟩
  · simp [handleEvent, hp, hne1, hne2]
  · by_cases h1 : containsSub noInfoMarker (getMsg s aIdx).content <;>
      by_cases h2 : clar <;> by_cases h3 : j.isArr <;>
        simp [h1, h2, h3]
  · rw [show getMsg { s with
        currentCitations :=
          (if containsSub noInfoMarker (getMsg s aIdx).content || clar ||
              !j.isArr
           then [] else j.elems),
        messages := s.messages.set aIdx
          ({ getMsg s aIdx with
             citations :=
               (if containsSub noInfoMarker (getMsg s aIdx).content || clar ||
                   !j.isArr
                then [] else j.elems),
             isClarification := clar }) } aIdx =
        ({ getMsg s aIdx with
           citations :=
             (if containsSub noInfoMarker (getMsg s aIdx).content || clar ||
                 !j.isArr
              then [] else j.elems),
           isClarification := clar })
      from getD_set_self _ _ _ _ hlt]
    by_cases h1 : containsSub noInfoMarker (getMsg s aIdx).content <;>
      by_cases h2 : clar <;> by_cases h3 : j.isArr <;>
        simp [h1, h2, h3]

/-- Witness for the citation-suppression theorem: an array payload on a
clarification-free turn whose content lacks the marker is attached verbatim. -/
theorem citations_suppression_witness :
    ∃ s', handleEvent
        (fun d => if d = "y".toList then some (.arr [.obj []]) else none) 0
        ({ initState none with
            messages := [{ id := "a".toList, role := .assistant,
                           content := "ok".toList, citations := [],
                           isClarification := false }] }, false)
        citationsLit "y".toList = some (s', false) ∧
      s'.currentCitations =
        (if (Json.arr [.obj []]).isArr = true ∧ false = false ∧
            containsSub noInfoMarker
              (getMsg { initState none with
                messages := [{ id := "a".toList, role := .assistant,
                               content := "ok".toList, citations := [],
                               isClarification := false }] } 0).content = false
         then (Json.arr [.obj []]).elems else []) ∧
      (getMsg s' 0).citations =
        (if (Json.arr [.obj []]).isArr = true ∧ false = false ∧
            containsSub noInfoMarker
              (getMsg { initState none with
                messages := [{ id := "a".toList, role := .assistant,
                               content := "ok".toList, citations := [],
                               isClarification := false }] } 0).content = false
         then (Json.arr [.obj []]).elems else []) :=
  citations_suppression
    (fun d => if d = "y".toList then some (.arr [.obj []]) else none) 0
    { initState none with
      messages := [{ id := "a".toList, role := .assistant,
                     content := "ok".toList, citations := [],
                     isClarification := false }] }
    false "y".toList (.arr [.obj []]) rfl (by decide)

/-- C4: the source's turn loop aborts on a malformed payload — the stream
below decodes to a malformed `meta` event followed by a well-formed `delta`
event, yet the turn ends with the thrown parse error recorded and the apology
overwriting the content: the subsequent `delta` was never dispatched. -/
theorem malformed_payload_aborts_loop :
    decodeChunks ["event: meta\ndata: bad\nevent: delta\ndata: y\n".toList] =
      [(metaLit, "bad".toList), (deltaLit, "y".toList)] ∧
    (submit
      { create := .success "c".toList,
        ask := .stream ["event: meta\ndata: bad\nevent: delta\ndata: y\n".toList],
        parse := fun d =>
          if d = "y".toList then some (.obj [(contentKey, .str "hi".toList)])
          else none,
        uid := "u".toList, aid := "a".toList }
      { initState none with input := "q".toList }).error = some jsonErrMsg ∧
    (getMsg (submit
      { create := .success "c".toList,
        ask := .stream ["event: meta\ndata: bad\nevent: delta\ndata: y\n".toList],
        parse := fun d =>
          if d = "y".toList then some (.obj [(contentKey, .str "hi".toList)])
          else none,
        uid := "u".toList, aid := "a".toList }
      { initState none with input := "q".toList }) 1).content = apologyMsg := by
  refine ⟨by decide, rfl, rfl⟩

/-- The `finally` of a turn always clears the loading flag. -/
theorem submitFinish_isLoading (aIdx : Nat)
    (r : SessionState × Option (List Char)) :
    (submitFinish aIdx r).isLoading = false := by
  rcases r with ⟨sf, _ | e⟩ <;> rfl

/-- C5: when the turn's request fails outright (non-success status, absent
body, or an error thrown while ensuring the conversation, i.e. before any
event is processed), the open assistant message's content is overwritten with
the fixed apology, its citation list is left empty, the error state is
populated, and the loading flag is cleared — the latter for every outcome. -/
theorem submit_request_failure (t : AskTransport) (s : SessionState)
    (hin : (jsTrim s.input).isEmpty = false) (hload : s.isLoading = false)
    (hfail : (∃ n, t.ask = .httpError n) ∨ t.ask = .noBody ∨
      ∃ e, (ensureConversation t.create (submitSetup t s)).2 = .error e) :
    (getMsg (submit t s) (s.messages.length + 1)).content = apologyMsg ∧
    (getMsg (submit t s) (s.messages.length + 1)).citations = [] ∧
    (∃ m, (submit t s).error = some m) ∧
    (submit t s).isLoading = false ∧
    ∀ t' : AskTransport, (submit t' s).isLoading = false := by
  have hguard : ¬(((jsTrim s.input).isEmpty || s.isLoading) = true) := by
    simp [hin, hload]
  have hsub : submit t s =
      submitFinish ((submitSetup t s).messages.length - 1)
        (submitTry t ((submitSetup t s).messages.length - 1)
          (submitSetup t s)) := by
    rw [submit, if_neg hguard]
  have hlen2 : (submitSetup t s).messages.length = s.messages.length + 2 := by
    simp [submitSetup]
  have haIdx : (submitSetup t s).messages.length - 1 = s.messages.length + 1 := by
    rw [hlen2]; omega
  cases hens : ensureConversation t.create (submitSetup t s) with
  | mk s3 res =>
    have hmsg3 : s3.messages = (submitSetup t s).messages := by
      have := ensureConversation_messages t.create (submitSetup t s)
      rw [hens] at this
      exact this
    have htry : ∃ e', submitTry t ((submitSetup t s).messages.length - 1)
        (submitSetup t s) = (s3, some e') := by
      cases res with
      | error e => exact ⟨e, by simp [submitTry, hens]⟩
      | ok cid =>
        rcases hfail with ⟨n, hn⟩ | hn | ⟨e, he⟩
        · exact ⟨apiErrorMsg n, by simp [submitTry, hens, hn]⟩
        · exact ⟨noBodyMsg, by simp [submitTry, hens, hn]⟩
        · rw [hens] at he
          simp at he
    obtain ⟨e', htry⟩ := htry
    have hinit : getMsg s3 (s.messages.length + 1) = mkAssistantMsg t := by
      unfold getMsg
      rw [hmsg3]
      unfold submitSetup
      exact getD_append_second s.messages (mkUserMsg t s) (mkAssistantMsg t)
        mDefault
    have hlt : s.messages.length + 1 < s3.messages.length := by
      rw [hmsg3, hlen2]; omega
    have hget : getMsg (submit t s) (s.messages.length + 1) =
        ({ getMsg s3 (s.messages.length + 1) with content := apologyMsg }) := by
      rw [hsub, htry, haIdx]
      simp only [submitFinish]
      unfold getMsg
      exact getD_set_self _ _ _ _ hlt
    refine ⟨by rw [hget], ?_, ⟨e', by rw [hsub, htry]; rfl⟩, ?_, ?_⟩
    · rw [hget]
      have : (getMsg s3 (s.messages.length + 1)).citations = [] := by
        rw [hinit]; rfl
      simpa using this
    · rw [hsub]
      exact submitFinish_isLoading _ _
    · intro t'
      rw [submit, if_neg hguard]
      exact submitFinish_isLoading _ _

/-- Witness for the request-failure theorem: a 500 response on a fresh turn. -/
theorem submit_request_failure_witness :
    (getMsg (submit
      { create := .success "c".toList, ask := .httpError 500,
        parse := fun _ => none, uid := "u".toList, aid := "a".toList }
      { initState none with input := "q".toList }) 1).content = apologyMsg ∧
    (getMsg (submit
      { create := .success "c".toList, ask := .httpError 500,
        parse := fun _ => none, uid := "u".toList, aid := "a".toList }
      { initState none with input := "q".toList }) 1).citations = [] ∧
    (∃ m, (submit
      { create := .success "c".toList, ask := .httpError 500,
        parse := fun _ => none, uid := "u".toList, aid := "a".toList }
      { initState none with input := "q".toList }).error = some m) ∧
    (submit
      { create := .success "c".toList, ask := .httpError 500,
        parse := fun _ => none, uid := "u".toList, aid := "a".toList }
      { initState none with input := "q".toList }).isLoading = false ∧
    ∀ t' : AskTransport, (submit t'
      { initState none with input := "q".toList }).isLoading = false :=
  submit_request_failure
    { create := .success "c".toList, ask := .httpError 500,
      parse := fun _ => none, uid := "u".toList, aid := "a".toList }
    { initState none with input := "q".toList }
    (by decide) (by decide) (Or.inl ⟨500, rfl⟩)

/-- C6: restoring at startup (empty timeline, no error) with a persisted
identity the server reports unknown clears the persisted identity and the
in-memory id, leaves the timeline empty and raises no visible error. -/
theorem restore_notFound_recovery (s : SessionState) (pid : List Char)
    (hp : s.persisted = some pid) (hm : s.messages = []) (he : s.error = none) :
    (restore .notFound s).persisted = none ∧
    (restore .notFound s).conversationId = none ∧
    (restore .notFound s).messages = [] ∧
    (restore .notFound s).error = none := by
  simp [restore, hp, setConversationId, hm, he]

/-- Witness for the 404-recovery theorem: a fresh session holding a stale
persisted identity. -/
theorem restore_notFound_recovery_witness :
    (restore .notFound (initState (some "old".toList))).persisted = none ∧
    (restore .notFound (initState (some "old".toList))).conversationId = none ∧
    (restore .notFound (initState (some "old".toList))).messages = [] ∧
    (restore .notFound (initState (some "old".toList))).error = none :=
  restore_notFound_recovery (initState (some "old".toList)) "old".toList
    rfl rfl rfl

/-- C7 counterexample: the clarification flag is overwritten, not latched — a
`meta` event with a true indicator followed by a `meta` event without one
leaves the flag false, so the `delta` that follows is stamped false, where the
claim demands true. -/
theorem clarification_not_latched_counterexample :
    (getMsg (processEvents
      (fun d =>
        if d = "T".toList then some (.obj [(needsKey, .bool true)])
        else if d = "E".toList then some (.obj [])
        else if d = "D".toList then some (.obj [(contentKey, .str "x".toList)])
        else none)
      0
      [(metaLit, "T".toList), (metaLit, "E".toList), (deltaLit, "D".toList)]
      ({ initState none with
          messages := [{ id := "a".toList, role := .assistant, content := [],
                         citations := [], isClarification := false }] },
        false)).1.1 0).isClarification = false := rfl

/-- C7, amended: a `meta` event overwrites the turn's clarification flag with
its own indicator (truthiness of the payload field, false when absent) rather
than latching it; every `delta` and `citations` event stamps the current flag
value on the open message and leaves the flag itself unchanged. -/
theorem clarification_flag_behavior (parse : List Char → Option Json)
    (aIdx : Nat) (s : SessionState) (clar : Bool) (dt : List Char) (j : Json)
    (hp : parse dt = some j) (hlt : aIdx < s.messages.length) :
    (∃ s', handleEvent parse aIdx (s, clar) metaLit dt =
      some (s', jsTruthyOpt (j.getField needsKey))) ∧
    (∃ s', handleEvent parse aIdx (s, clar) deltaLit dt = some (s', clar) ∧
      (getMsg s' aIdx).isClarification = clar) ∧
    (∃ s', handleEvent parse aIdx (s, clar) citationsLit dt = some (s', clar) ∧
      (getMsg s' aIdx).isClarification = clar) := by
  have hne1 : ¬(deltaLit = metaLit) := by decide
  have hne2 : ¬(citationsLit = metaLit) := by decide
  have hne3 : ¬(citationsLit = deltaLit) := by decide
  refine ⟨⟨(if jsTruthyOpt (j.getField cidKey) = true then
        setConversationId s (some (jsString ((j.getField cidKey).getD .null)))
      else s), ?_⟩,
    ⟨{ s with
       messages := s.messages.set aIdx
         ({ getMsg s aIdx with
            content := (getMsg s aIdx).content ++ deltaText j,
            isClarification := clar }) }, ?_, ?_⟩,
    ⟨{ s with
       currentCitations :=
         (if containsSub noInfoMarker (getMsg s aIdx).content || clar ||
             !j.isArr then [] else j.elems),
       messages := s.messages.set aIdx
         ({ getMsg s aIdx with
            citations :=
              (if containsSub noInfoMarker (getMsg s aIdx).content || clar ||
                  !j.isArr then [] else j.elems),
            isClarification := clar }) }, ?_, ?_⟩⟩
  · unfold handleEvent
    rw [hp]
    rfl
  · unfold handleEvent
    rw [hp]
    simp [hne1]
  · exact congrArg Message.isClarification (getD_set_self _ _ _ _ hlt)
  · unfold handleEvent
    rw [hp]
    simp [hne2, hne3]
  · exact congrArg Message.isClarification (getD_set_self _ _ _ _ hlt)

/-- Witness for the clarification-flag theorem: a payload without the
indicator, dispatched at the open message of a one-message timeline. -/
theorem clarification_flag_behavior_witness :
    (∃ s', handleEvent (fun _ => some (.obj [])) 0
      ({ initState none with
          messages := [{ id := "a".toList, role := .assistant, content := [],
                         citations := [], isClarification := false }] }, true)
      metaLit "E".toList =
      some (s', jsTruthyOpt ((Json.obj []).getField needsKey))) ∧
    (∃ s', handleEvent (fun _ => some (.obj [])) 0
      ({ initState none with
          messages := [{ id := "a".toList, role := .assistant, content := [],
                         citations := [], isClarification := false }] }, true)
      deltaLit "E".toList = some (s', true) ∧
      (getMsg s' 0).isClarification = true) ∧
    (∃ s', handleEvent (fun _ => some (.obj [])) 0
      ({ initState none with
          messages := [{ id := "a".toList, role := .assistant, content := [],
                         citations := [], isClarification := false }] }, true)
      citationsLit "E".toList = some (s', true) ∧
      (getMsg s' 0).isClarification = true) :=
  clarification_flag_behavior (fun _ => some (.obj [])) 0
    { initState none with
      messages := [{ id := "a".toList, role := .assistant, content := [],
                     citations := [], isClarification := false }] }
    true "E".toList (.obj []) rfl (by decide)

theorem find?_append_or {α : Type} (p : α → Bool) (l1 l2 : List α) :
    (l1 ++ l2).find? p =
      match l1.find? p with
      | some x => some x
      | none => l2.find? p := by
  induction l1 with
  | nil => rfl
  | cons a l1 ih =>
    by_cases hp : p a
    · rw [List.cons_append, List.find?_cons_of_pos _ hp,
        List.find?_cons_of_pos _ hp]
    · rw [List.cons_append, List.find?_cons_of_neg _ hp,
        List.find?_cons_of_neg _ hp, ih]

/-- The newest-to-oldest scan is the last match in timeline order. -/
theorem find?_reverse_eq {α : Type} (p : α → Bool) (l : List α) :
    l.reverse.find? p = (l.filter p).getLast? := by
  induction l with
  | nil => rfl
  | cons a l ih =>
    rw [List.reverse_cons, find?_append_or, ih, List.filter_cons]
    by_cases hp : p a
    · simp only [hp, if_true]
      cases hl : (l.filter p).getLast? with
      | some x =>
        cases hfp : l.filter p with
        | nil => rw [hfp] at hl; simp at hl
        | cons b bs =>
          rw [hfp] at hl
          rw [List.getLast?_cons_cons]
          exact hl.symm
      | none =>
        cases hfp : l.filter p with
        | nil => simp [List.find?, hp, hfp]
        | cons b bs => rw [hfp] at hl; simp at hl
    · simp only [hp, if_false, Bool.false_eq_true]
      cases hl : (l.filter p).getLast? with
      | some x => rfl
      | none => simp [List.find?, hp]

/-- The result of a successful restore, per the source definition. -/
def scanResult (msgs : List Message) : Option Message :=
  (msgs.filter citedAssistant).getLast?

/-- C8: after a successful restore whose payload carries object-valued
citations, the last message of the restored timeline (in order — i.e. the
first scanning newest-to-oldest) that is an assistant message with at least
one citation supplies the initial citation view: `currentCitations` becomes
its citation list and `selectedCitation` its first citation; when no such
message exists, both are left unchanged. -/
theorem restore_citation_scan (payload : ConversationList) (s : SessionState)
    (pid : List Char) (hp : s.persisted = some pid)
    (hobj : ∀ sm ∈ payload.msgs, ∀ c ∈ sm.citations.getD [],
      jsTruthy c = true) :
    (scanResult (payload.msgs.map mapServerMsg) = none →
      (restore (.success payload) s).currentCitations = s.currentCitations ∧
      (restore (.success payload) s).selectedCitation = s.selectedCitation) ∧
    (∀ m, scanResult (payload.msgs.map mapServerMsg) = some m →
      (restore (.success payload) s).currentCitations = m.citations ∧
      ∃ c, m.citations.head? = some c ∧
        (restore (.success payload) s).selectedCitation = some c) := by
  constructor
  · intro hnone
    have hfind : (payload.msgs.map mapServerMsg).reverse.find? citedAssistant =
        none := by
      rw [find?_reverse_eq]
      exact hnone
    simp [restore, hp, hfind, setConversationId]
  · intro m hsome
    have hfind : (payload.msgs.map mapServerMsg).reverse.find? citedAssistant =
        some m := by
      rw [find?_reverse_eq]
      exact hsome
    have hpm : citedAssistant m = true := List.find?_some hfind
    have hmem : m ∈ payload.msgs.map mapServerMsg :=
      List.mem_reverse.mp (List.mem_of_find?_eq_some hfind)
    obtain ⟨sm, hsm, hmap⟩ := List.mem_map.mp hmem
    have hcit : ∃ c rest, m.citations = c :: rest := by
      unfold citedAssistant at hpm
      cases hc : m.citations with
      | nil => rw [hc] at hpm; simp at hpm
      | cons c rest => exact ⟨c, rest, rfl⟩
    obtain ⟨c, rest, hc⟩ := hcit
    have hcs : m.citations = sm.citations.getD [] := by
      rw [← hmap]; rfl
    have htr : jsTruthy c = true := by
      refine hobj sm hsm c ?_
      rw [← hcs, hc]
      exact List.mem_cons_self c rest
    simp only [restore, hp, hfind]
    refine ⟨by trivial, c, by rw [hc]; rfl, ?_⟩
    rw [hc]
    simp [htr]

/-- A sample history payload: a cited assistant answer then a user message. -/
def samplePayload : ConversationList :=
  { conversation_id := "c".toList,
    msgs := [
      { id := "m1".toList, role := .assistant, content := "a".toList,
        citations := some [Json.obj []], clarFlag := none },
      { id := "m2".toList, role := .user, content := "b".toList,
        citations := none, clarFlag := none }] }

/-- Witness for the restore-scan theorem: restoring `samplePayload` makes the
assistant message's citations the initial citation view. -/
theorem restore_citation_scan_witness :
    (scanResult (samplePayload.msgs.map mapServerMsg) = none →
      (restore (.success samplePayload)
          (initState (some "c".toList))).currentCitations =
        (initState (some "c".toList)).currentCitations ∧
      (restore (.success samplePayload)
          (initState (some "c".toList))).selectedCitation =
        (initState (some "c".toList)).selectedCitation) ∧
    (∀ m, scanResult (samplePayload.msgs.map mapServerMsg) = some m →
      (restore (.success samplePayload)
          (initState (some "c".toList))).currentCitations = m.citations ∧
      ∃ c, m.citations.head? = some c ∧
        (restore (.success samplePayload)
            (initState (some "c".toList))).selectedCitation = some c) :=
  restore_citation_scan samplePayload (initState (some "c".toList))
    "c".toList rfl
    (by
      intro sm hsm c hc
      simp only [samplePayload, List.mem_cons, List.not_mem_nil, or_false]
        at hsm
      rcases hsm with h | h <;> subst h <;> simp at hc
      rw [hc]
      rfl)

/-- A selected citation is a member of the current list when the invariant
holds. -/
theorem citInv_mem {s : SessionState} {c : Json}
    (hsel : s.selectedCitation = some c) (h : citInv s) :
    c ∈ s.currentCitations := by
  unfold citInv at h
  rw [hsel] at h
  exact h

/-- The invariant transfers along states agreeing on the citation view. -/
theorem citInv_of_eq {s s' : SessionState}
    (hsel : s'.selectedCitation = s.selectedCitation)
    (hcur : s'.currentCitations = s.currentCitations)
    (h : citInv s) : citInv s' := by
  unfold citInv at h ⊢
  rw [hsel, hcur]
  exact h

/-- C9 counterexample: restore a history whose assistant message carries a
citation (selecting it), then click the user message, which has no citations —
`currentCitations` is cleared but `selectedCitation` is not, breaking the
invariant that the selection is drawn from `currentCitations`. -/
theorem selected_in_current_counterexample :
    ¬ citInv (step (.messageClickOp (mapServerMsg
        { id := "m2".toList, role := .user, content := "b".toList,
          citations := none, clarFlag := none }))
      (step (.restoreOp (.success samplePayload))
        (initState (some "c".toList)))) := by
  intro h
  have hmem := citInv_mem (c := Json.obj []) rfl h
  have hcur : (step (.messageClickOp (mapServerMsg
        { id := "m2".toList, role := .user, content := "b".toList,
          citations := none, clarFlag := none }))
      (step (.restoreOp (.success samplePayload))
        (initState (some "c".toList)))).currentCitations = [] := rfl
  rw [hcur] at hmem
  exact absurd hmem (List.not_mem_nil _)

/-- The operations that never break the selection invariant: all but `submit`
(which clears `currentCitations` at turn start without clearing the selection)
and a message click on a citation-free message (which clears the panel but
keeps the selection). -/
def safeOp : Op → Prop
  | .submitOp _ => False
  | .messageClickOp m => m.citations ≠ []
  | _ => True

/-- C9, amended: the invariant "`selectedCitation` is null or an element of
`currentCitations`" is preserved by clear, restore, startNewConversation,
marker-click selection, and message clicks on cited messages; it is NOT an
invariant of the whole session core — `submit` and a message click on a
citation-free message reset `currentCitations` while keeping the selection. -/
theorem citInv_preserved_safe (op : Op) (s : SessionState)
    (hop : safeOp op) (hinv : citInv s) : citInv (step op s) := by
  cases op with
  | submitOp t => exact hop.elim
  | clearOp =>
    show citInv (clear s)
    unfold citInv
    exact trivial
  | newConversationOp o =>
    show citInv (startNewConversation o s)
    unfold startNewConversation createConversation
    cases o with
    | success cid =>
      by_cases h : cid.isEmpty
      · simp only [h, if_true]
        unfold citInv
        exact trivial
      · simp only [h, if_false, Bool.false_eq_true]
        unfold citInv
        exact trivial
    | httpError n => unfold citInv; exact trivial
    | thrown m => unfold citInv; exact trivial
  | markerClickOp k =>
    show citInv (handleCitationClick k s)
    unfold handleCitationClick
    cases hfind : s.currentCitations.find? (fun c =>
        match c.getField "id".toList with
        | some (.num n) => n = k
        | _ => false) with
    | none => exact hinv
    | some c =>
      have hmem : c ∈ s.currentCitations := List.mem_of_find?_eq_some hfind
      unfold citInv selectCitation
      exact hmem
  | messageClickOp m =>
    show citInv (handleMessageClick m s)
    unfold handleMessageClick
    cases hc : m.citations with
    | nil => exact absurd hc hop
    | cons c rest => exact List.mem_cons_self c rest
  | restoreOp r =>
    show citInv (restore r s)
    unfold restore
    cases hp : s.persisted with
    | none => exact hinv
    | some pid =>
      cases r with
      | notFound => exact citInv_of_eq rfl rfl hinv
      | httpError n => exact citInv_of_eq rfl rfl hinv
      | thrown m => exact citInv_of_eq rfl rfl hinv
      | success payload =>
        dsimp only
        cases hfind : List.find? citedAssistant
            ((List.map mapServerMsg payload.msgs).reverse) with
        | none => exact citInv_of_eq rfl rfl hinv
        | some lastA =>
          dsimp only
          cases hcits : lastA.citations with
          | nil => exact trivial
          | cons c rest =>
            dsimp only
            by_cases htr : jsTruthy c = true
            · rw [if_pos htr]
              exact List.mem_cons_self c rest
            · rw [if_neg htr]
              exact trivial

/-- Witness for the safe-operation preservation theorem: clearing a fresh
session keeps the invariant. -/
theorem citInv_preserved_safe_witness : citInv (step .clearOp (initState none)) :=
  citInv_preserved_safe .clearOp (initState none) trivial trivial

/-- C10: a restore whose history fetch fails with a non-404 error (non-success
status or a thrown error) only records the error message: the timeline, the
in-memory and persisted identity, and the citation view are all unchanged. -/
theorem restore_failure_preserves_state (s : SessionState) (pid : List Char)
    (r : RestoreOutcome) (hp : s.persisted = some pid)
    (hfail : (∃ n, r = .httpError n) ∨ ∃ m, r = .thrown m) :
    (restore r s).messages = s.messages ∧
    (restore r s).conversationId = s.conversationId ∧
    (restore r s).persisted = s.persisted ∧
    (restore r s).currentCitations = s.currentCitations ∧
    (restore r s).selectedCitation = s.selectedCitation ∧
    ∃ m, (restore r s).error = some m := by
  rcases hfail with ⟨n, hn⟩ | ⟨msg, hn⟩
  · subst hn
    simp only [restore, hp]
    exact ⟨trivial, trivial, trivial, trivial, trivial, loadErrMsg n, rfl⟩
  · subst hn
    simp only [restore, hp]
    exact ⟨trivial, trivial, trivial, trivial, trivial, msg, rfl⟩

/-- Witness for the restore-failure theorem: a 500 on the history fetch of a
fresh session with a persisted identity. -/
theorem restore_failure_preserves_state_witness :
    (restore (.httpError 500) (initState (some "c".toList))).messages =
      (initState (some "c".toList)).messages ∧
    (restore (.httpError 500) (initState (some "c".toList))).conversationId =
      (initState (some "c".toList)).conversationId ∧
    (restore (.httpError 500) (initState (some "c".toList))).persisted =
      (initState (some "c".toList)).persisted ∧
    (restore (.httpError 500) (initState (some "c".toList))).currentCitations =
      (initState (some "c".toList)).currentCitations ∧
    (restore (.httpError 500) (initState (some "c".toList))).selectedCitation =
      (initState (some "c".toList)).selectedCitation ∧
    ∃ m, (restore (.httpError 500) (initState (some "c".toList))).error =
      some m :=
  restore_failure_preserves_state (initState (some "c".toList)) "c".toList
    (.httpError 500) rfl (Or.inl ⟨500, rfl⟩)

end ReadMatrix
